import Mathlib

/-!
# Permanent Portfolio Tracker — verification of the web layer and the engine contract

A shallow embedding of the TypeScript sources of the permanent-portfolio-tracker
web client (`AllocationPanel`, the ledger page, `BucketCard`, `BucketDrop`, the
assets page grouping) together with a model, taken from the specification text,
of the server-side Allocation Suggester and the two-phase crypto confirmation —
the engine itself is not part of the checked sources.

JavaScript numbers are modelled by `JNum` (`nan` standing for every non-finite
value: on every modelled code path a non-finite number is either coerced to `0`
by `|| 0` or discarded by a `Number.isFinite` guard, so conflating `NaN` and
`±Infinity` does not change any observable result).  Nullable JavaScript fields
are modelled by `JVal` which distinguishes `undefined`, `null` and a number, so
that the `x != null`, `x ?? y` and `Number(x)` coercions of the sources can be
translated one by one.
-/

/-- A JavaScript number as observed after a `Number(...)` coercion:
either a finite rational or a non-finite value (`NaN`, `±Infinity`). -/
inductive JNum where
  | nan : JNum
  | fin : ℚ → JNum
deriving DecidableEq

/-- `Number.isFinite`. -/
def JNum.isFinite : JNum → Bool
  | .nan => false
  | .fin _ => true

/-- A nullable JavaScript field: `undefined`, `null`, or a number. -/
inductive JVal where
  | undef : JVal
  | jnull : JVal
  | jnum : JNum → JVal
deriving DecidableEq

/-- The `Number(v)` coercion on a nullable field:
`Number(undefined) = NaN`, `Number(null) = 0`. -/
def JVal.toNumber : JVal → JNum
  | .undef => .nan
  | .jnull => .fin 0
  | .jnum j => j

/-- The loose `v == null` / `v != null` test: true for `undefined` and `null`. -/
def JVal.isNullish : JVal → Bool
  | .undef => true
  | .jnull => true
  | .jnum _ => false

/-- `Number(v) || 0`: the numeric coercion with every falsy result
(`NaN`, `0`, and the coercions of `undefined`/`null`) replaced by `0`.
`Number(v || 0)` agrees with it on every input reaching the modelled code. -/
def JVal.orZero (v : JVal) : ℚ :=
  match v.toNumber with
  | .nan => 0
  | .fin q => q

/-- Whether `needle` is a prefix of `hay` (on character lists). -/
def chStart : List Char → List Char → Bool
  | [], _ => true
  | _ :: _, [] => false
  | a :: as, b :: bs => a = b && chStart as bs

/-- Whether `needle` occurs as a contiguous substring of `hay`
(on character lists).  Models `String.prototype.includes`. -/
def chHas (needle : List Char) : List Char → Bool
  | [] => chStart needle []
  | h :: t => chStart needle (h :: t) || chHas needle t

/-- `hay.includes(needle)` on Lean strings. -/
def strHas (hay needle : String) : Bool :=
  chHas needle.data hay.data

/-- Drop leading whitespace from a character list. -/
def dropWs : List Char → List Char
  | [] => []
  | c :: t => if c.isWhitespace then dropWs t else c :: t

/-- `String.prototype.trim`: strip whitespace from both ends. -/
def jsTrim (s : String) : String :=
  ⟨((dropWs ((dropWs s.data).reverse)).reverse)⟩

/-- `s || d` on strings (`undefined`/`null`/`""` fall back to `d`),
for optional string fields. -/
def strOr (v : Option String) (d : String) : String :=
  match v with
  | none => d
  | some s => if s = "" then d else s

/-! ## Settings: `readSlipPct` (source `part_002`, lines 49–60) -/

/-- The `override` record of the settings payload
(only the field read by `readSlipPct`). -/
structure OverrideRec where
  crypto_slip_pct : JVal
deriving DecidableEq

/-- The `effective` record of the settings payload
(only the field read by `readSlipPct`). -/
structure EffectiveRec where
  crypto_slip_pct : JVal
deriving DecidableEq

/-- The settings payload as read by `readSlipPct`: both sub-records may be
absent (`settings?.override` / `settings?.effective` being `undefined`/`null`). -/
structure SettingsRec where
  override : Option OverrideRec
  effective : Option EffectiveRec
deriving DecidableEq

/-- `Math.max(0, Math.min(20, n))`. -/
def clampSlip (n : ℚ) : ℚ := max 0 (min 20 n)

/-- The first step of `readSlipPct`: the clamped override value, or `none`
when the override's `crypto_slip_pct` is nullish or its coercion non-finite. -/
def overrideSlip (settings : Option SettingsRec) : Option ℚ :=
  match settings with
  | none => none
  | some s =>
    match s.override with
    | none => none
    | some ov =>
      if ov.crypto_slip_pct.isNullish then none
      else
        match ov.crypto_slip_pct.toNumber with
        | .nan => none
        | .fin n => some (clampSlip n)

/-- The value `settings?.effective?.crypto_slip_pct` read in the fallback step
of `readSlipPct` (an absent link yields `undefined`). -/
def effectiveSlipVal (settings : Option SettingsRec) : JVal :=
  match settings with
  | none => .undef
  | some s =>
    match s.effective with
    | none => .undef
    | some eff => eff.crypto_slip_pct

/-- `readSlipPct` from `part_002`: the override's `crypto_slip_pct` when
non-null and finite (clamped to `[0, 20]`), else the effective value when its
numeric coercion is finite (clamped), else the default `1.0`. -/
def readSlipPct (settings : Option SettingsRec) : ℚ :=
  match overrideSlip settings with
  | some r => r
  | none =>
    match (effectiveSlipVal settings).toNumber with
    | .nan => 1
    | .fin n => clampSlip n

/-- The slippage-tolerance cascade as the claim words it: the override's
`crypto_slip_pct` clamped to `[0, 20]` when it is present and finite, otherwise
the effective `crypto_slip_pct` clamped to `[0, 20]` when finite, otherwise the
default `1.0`. -/
def readSlipPctClaim (settings : Option SettingsRec) : ℚ :=
  match settings with
  | none => 1
  | some s =>
    match s.override, s.effective with
    | some ov, eff? =>
      match ov.crypto_slip_pct.isNullish, ov.crypto_slip_pct.toNumber with
      | false, .fin n => clampSlip n
      | _, _ =>
        match (match eff? with | none => JVal.undef | some eff => eff.crypto_slip_pct).toNumber with
        | .nan => 1
        | .fin n => clampSlip n
    | none, eff? =>
      match (match eff? with | none => JVal.undef | some eff => eff.crypto_slip_pct).toNumber with
      | .nan => 1
      | .fin n => clampSlip n

theorem clampSlip_mem (n : ℚ) : 0 ≤ clampSlip n ∧ clampSlip n ≤ 20 := by
  unfold clampSlip
  constructor
  · exact le_max_left 0 _
  · exact max_le (by norm_num) (min_le_left 20 n)

theorem overrideSlip_shape (settings : Option SettingsRec) (r : ℚ)
    (h : overrideSlip settings = some r) : ∃ n, r = clampSlip n := by
  rcases settings with _ | s
  · simp [overrideSlip] at h
  rcases hov : s.override with _ | ov
  · simp [overrideSlip, hov] at h
  rcases hnl : ov.crypto_slip_pct.isNullish with _ | _
  · rcases hn : ov.crypto_slip_pct.toNumber with _ | n
    · simp [overrideSlip, hov, hnl, hn] at h
    · simp [overrideSlip, hov, hnl, hn] at h
      exact ⟨n, h.symm⟩
  · simp [overrideSlip, hov, hnl] at h

/-- **C9.** For every settings payload (including null, missing fields, or
non-numeric values), `readSlipPct` returns a value in `[0, 20]`, namely the
override's `crypto_slip_pct` clamped to `[0, 20]` when present and finite,
otherwise the effective `crypto_slip_pct` clamped to `[0, 20]` when finite,
otherwise the default `1.0`. -/
theorem readSlipPct_clamped_cascade (settings : Option SettingsRec) :
    0 ≤ readSlipPct settings ∧ readSlipPct settings ≤ 20 ∧
      readSlipPct settings = readSlipPctClaim settings := by
  have hbounds : 0 ≤ readSlipPct settings ∧ readSlipPct settings ≤ 20 := by
    unfold readSlipPct
    rcases hov : overrideSlip settings with _ | r
    · rcases hn : (effectiveSlipVal settings).toNumber with _ | n
      · norm_num
      · exact clampSlip_mem n
    · obtain ⟨n, rfl⟩ := overrideSlip_shape settings r hov
      exact clampSlip_mem n
  refine ⟨hbounds.1, hbounds.2, ?_⟩
  rcases settings with _ | s
  · simp [readSlipPct, readSlipPctClaim, overrideSlip, effectiveSlipVal, JVal.toNumber]
  rcases hov : s.override with _ | ov
  · simp [readSlipPct, readSlipPctClaim, overrideSlip, effectiveSlipVal, hov]
  rcases hnl : ov.crypto_slip_pct.isNullish with _ | _
  · rcases hn : ov.crypto_slip_pct.toNumber with _ | n
    · simp [readSlipPct, readSlipPctClaim, overrideSlip, effectiveSlipVal, hov, hnl, hn]
    · simp [readSlipPct, readSlipPctClaim, overrideSlip, effectiveSlipVal, hov, hnl, hn]
  · rcases hn : ov.crypto_slip_pct.toNumber with _ | n
    · simp [readSlipPct, readSlipPctClaim, overrideSlip, effectiveSlipVal, hov, hnl, hn]
    · simp [readSlipPct, readSlipPctClaim, overrideSlip, effectiveSlipVal, hov, hnl, hn]

/-! ## Rendered figures

The locale string formatting of `fmtPct`/`fmtCny`/`fmtSignedCny`
(source `part_006`) is abstracted to the value level: each formatter first
coerces with `Number(...)` and renders the dash placeholder for a non-finite
value, otherwise a numeric figure carrying the value and the decimal count. -/

/-- A rendered figure: the dash placeholder, a percent figure
(`fmtPct`), a rounded integer percent (`Math.round(...) + "%"`), a currency
figure (`fmtCny`), or a signed currency figure (`fmtSignedCny`). -/
inductive Cell where
  | dash : Cell
  | pct (value : ℚ) (decimals : ℕ) : Cell
  | intPct (value : ℤ) : Cell
  | cny (value : ℚ) (decimals : ℕ) : Cell
  | signed (value : ℚ) (decimals : ℕ) : Cell
deriving DecidableEq

/-- `fmtPct(value, decimals)`: dash on a non-finite value, else a percent figure. -/
def fmtPctCell (v : JNum) (d : ℕ) : Cell :=
  match v with
  | .nan => .dash
  | .fin q => .pct q d

/-- `fmtCny(value, decimals)`: dash on a non-finite value, else a currency figure. -/
def fmtCnyCell (v : JNum) (d : ℕ) : Cell :=
  match v with
  | .nan => .dash
  | .fin q => .cny q d

/-- `fmtSignedCny(value, decimals)`: dash on a non-finite value, else a signed
currency figure. -/
def fmtSignedCnyCell (v : JNum) (d : ℕ) : Cell :=
  match v with
  | .nan => .dash
  | .fin q => .signed q d

/-- JavaScript `Math.round` (half-up, ties toward positive infinity). -/
def jsRound (q : ℚ) : ℤ := ⌊q + 1 / 2⌋

/-! ## Weight rendering (C8)

`BucketCard.tsx` lines 14–27 render the bucket's `weight`, `target_weight`,
`min_weight` and `max_weight`; `AllocationPanel` (`part_002` lines 278–280)
renders `current_weight` and `weight_after` of each suggestion row;
`BucketDrop.tsx` renders the configured `target/min/max` weights.  Fields not
read by the modelled renderers (the per-asset lists) are omitted. -/

/-- `CategoryView` (types.ts): the fields read by `BucketCard`. -/
structure CategoryView where
  id : String
  name : String
  value : JVal
  weight : JVal
  target_weight : JVal
  min_weight : JVal
  max_weight : JVal
  status : String
deriving DecidableEq

/-- A portfolio-configuration `Category` (types.ts). -/
structure Category where
  id : String
  name : String
  target_weight : JVal
  min_weight : JVal
  max_weight : JVal
deriving DecidableEq

/-- `BucketCard`: `fmtPct((Number(c.weight) || 0) * 100, 1)`. -/
def bucketCardWeightCell (c : CategoryView) : Cell :=
  fmtPctCell (.fin (c.weight.orZero * 100)) 1

/-- `BucketCard`: `fmtPct((Number(c.target_weight) || 0) * 100, 0)`. -/
def bucketCardTargetCell (c : CategoryView) : Cell :=
  fmtPctCell (.fin (c.target_weight.orZero * 100)) 0

/-- `BucketCard`: `fmtPct((Number(c.min_weight) || 0) * 100, 0)`. -/
def bucketCardMinCell (c : CategoryView) : Cell :=
  fmtPctCell (.fin (c.min_weight.orZero * 100)) 0

/-- `BucketCard`: `fmtPct((Number(c.max_weight) || 0) * 100, 0)`. -/
def bucketCardMaxCell (c : CategoryView) : Cell :=
  fmtPctCell (.fin (c.max_weight.orZero * 100)) 0

/-- `AssetBuySuggestion` (types.ts): one per-asset row of a suggestion. -/
structure AssetBuySuggestion where
  asset_id : Option String
  name : Option String
  code : Option String
  amount_cny : JVal
  est_quantity : JVal
deriving DecidableEq

/-- `CategorySuggestion` (types.ts): one per-bucket row of a suggestion. -/
structure CategorySuggestion where
  category_id : String
  name : Option String
  current_value : JVal
  current_weight : JVal
  target_weight : JVal
  target_value_after : JVal
  allocate_amount : JVal
  weight_after : JVal
  assets : Option (List AssetBuySuggestion)
deriving DecidableEq

/-- `AllocationPanel` row: `fmtPct((Number(c.current_weight) || 0) * 100, 1)`. -/
def panelCurrentWeightCell (c : CategorySuggestion) : Cell :=
  fmtPctCell (.fin (c.current_weight.orZero * 100)) 1

/-- `AllocationPanel` row: `fmtPct((Number(c.weight_after) || 0) * 100, 1)`. -/
def panelWeightAfterCell (c : CategorySuggestion) : Cell :=
  fmtPctCell (.fin (c.weight_after.orZero * 100)) 1

/-- `BucketDrop`: `Math.round((category.target_weight || 0) * 100)` with a
percent sign. -/
def bucketDropTargetCell (c : Category) : Cell :=
  .intPct (jsRound (c.target_weight.orZero * 100))

/-- `BucketDrop`: `Math.round((category.min_weight || 0) * 100)`. -/
def bucketDropMinCell (c : Category) : Cell :=
  .intPct (jsRound (c.min_weight.orZero * 100))

/-- `BucketDrop`: `Math.round((category.max_weight || 0) * 100)`. -/
def bucketDropMaxCell (c : Category) : Cell :=
  .intPct (jsRound (c.max_weight.orZero * 100))

theorem orZero_of_nonnumeric (v : JVal) (h : v.toNumber = .nan) : v.orZero = 0 := by
  unfold JVal.orZero
  rw [h]

/-- **C8.** Every weight field rendered by the presentation layer —
`weight`/`target_weight`/`min_weight`/`max_weight` in `BucketCard`,
`current_weight`/`weight_after` in `AllocationPanel`, and the configured
weights in `BucketDrop` — is displayed as the fraction multiplied by `100`
(with a non-numeric weight coerced to `0`), and for a nonzero fraction the
displayed value never equals the raw fraction. -/
theorem weights_rendered_times_100 (cv : CategoryView) (cs : CategorySuggestion)
    (cat : Category) (h : cv.weight.orZero ≠ 0) :
    bucketCardWeightCell cv = .pct (100 * cv.weight.orZero) 1 ∧
    bucketCardTargetCell cv = .pct (100 * cv.target_weight.orZero) 0 ∧
    bucketCardMinCell cv = .pct (100 * cv.min_weight.orZero) 0 ∧
    bucketCardMaxCell cv = .pct (100 * cv.max_weight.orZero) 0 ∧
    panelCurrentWeightCell cs = .pct (100 * cs.current_weight.orZero) 1 ∧
    panelWeightAfterCell cs = .pct (100 * cs.weight_after.orZero) 1 ∧
    bucketDropTargetCell cat = .intPct (jsRound (100 * cat.target_weight.orZero)) ∧
    bucketDropMinCell cat = .intPct (jsRound (100 * cat.min_weight.orZero)) ∧
    bucketDropMaxCell cat = .intPct (jsRound (100 * cat.max_weight.orZero)) ∧
    (cv.weight.toNumber = .nan → bucketCardWeightCell cv = .pct 0 1) ∧
    bucketCardWeightCell cv ≠ .pct cv.weight.orZero 1 := by
  refine ⟨?_, ?_, ?_, ?_, ?_, ?_, ?_, ?_, ?_, ?_, ?_⟩
  · simp [bucketCardWeightCell, fmtPctCell, mul_comm]
  · simp [bucketCardTargetCell, fmtPctCell, mul_comm]
  · simp [bucketCardMinCell, fmtPctCell, mul_comm]
  · simp [bucketCardMaxCell, fmtPctCell, mul_comm]
  · simp [panelCurrentWeightCell, fmtPctCell, mul_comm]
  · simp [panelWeightAfterCell, fmtPctCell, mul_comm]
  · simp [bucketDropTargetCell, mul_comm]
  · simp [bucketDropMinCell, mul_comm]
  · simp [bucketDropMaxCell, mul_comm]
  · intro hnan
    simp [bucketCardWeightCell, fmtPctCell, orZero_of_nonnumeric _ hnan]
  · simp only [bucketCardWeightCell, fmtPctCell, ne_eq, Cell.pct.injEq, and_true]
    intro heq
    apply h
    have : (99 : ℚ) * cv.weight.orZero = 0 := by linarith
    have h99 : (99 : ℚ) ≠ 0 := by norm_num
    exact (mul_eq_zero.mp this).resolve_left h99

/-- **C8 witness.** A concrete bucket at weight `1/2` is rendered as `50%`
(and not as the raw fraction `0.5`). -/
theorem weights_rendered_times_100_witness :
    (JVal.orZero (.jnum (.fin (1 / 2))) ≠ 0) ∧
      bucketCardWeightCell
          ⟨"c1", "股票", .jnum (.fin 1000), .jnum (.fin (1 / 2)), .jnum (.fin (1 / 4)),
            .jnum (.fin (15 / 100)), .jnum (.fin (35 / 100)), "ok"⟩ =
        .pct 50 1 := by
  have h : JVal.orZero (.jnum (.fin (1 / 2))) ≠ 0 := by
    norm_num [JVal.orZero, JVal.toNumber]
  refine ⟨h, ?_⟩
  have := (weights_rendered_times_100
      ⟨"c1", "股票", .jnum (.fin 1000), .jnum (.fin (1 / 2)), .jnum (.fin (1 / 4)),
        .jnum (.fin (15 / 100)), .jnum (.fin (35 / 100)), "ok"⟩
      ⟨"c1", none, .jnull, .jnull, .jnull, .jnull, .jnull, .jnull, none⟩
      ⟨"c1", "股票", .jnull, .jnull, .jnull⟩ h).1
  rw [this]
  norm_num [JVal.orZero, JVal.toNumber]

/-! ## `collectCryptoPrefill` (source `part_002`, lines 27–47) -/

/-- The per-asset metadata built by `buildAssetMetaById`. -/
structure AssetMeta where
  kind : String
  source : Option String
  name : Option String
deriving DecidableEq

/-- The `ContributionSuggestion` payload as read by the panel. -/
structure ContributionSuggestion where
  categories : List CategorySuggestion
  prefill_assets : Option (List (String × ℚ))
  contribution_remaining : JVal
  note : Option String
deriving DecidableEq

/-- The `CryptoPrefill` accumulator of `collectCryptoPrefill`:
`prefillAssets` is the JS record modelled as an insertion-ordered
association list, `items` the display list, `total` the running sum. -/
structure CryptoPrefill where
  total : ℚ
  items : List (String × ℚ)
  prefillAssets : List (String × ℚ)
deriving DecidableEq

/-- `rec[k] = (rec[k] || 0) + v` on a JS record: update the existing entry in
place, or append a fresh one. -/
def recAdd (m : List (String × ℚ)) (k : String) (v : ℚ) : List (String × ℚ) :=
  match m with
  | [] => [(k, v)]
  | (k', v') :: rest => if k' = k then (k', v' + v) :: rest else (k', v') :: recAdd rest k v

/-- One iteration of the `collectCryptoPrefill` loop body, with the `continue`
guards in source order: empty `asset_id`, missing metadata, non-crypto kind,
`manual-quantity` source, and a non-positive (or non-finite) amount all skip
the entry. -/
def prefillStep (metaById : List (String × AssetMeta)) (acc : CryptoPrefill)
    (a : AssetBuySuggestion) : CryptoPrefill :=
  let aid := strOr a.asset_id ""
  if aid = "" then acc
  else
    match List.lookup aid metaById with
    | none => acc
    | some meta =>
      if meta.kind ≠ "crypto" then acc
      else if strHas (strOr meta.source "") "manual-quantity" then acc
      else
        let amt := a.amount_cny.orZero
        if amt ≤ 0 then acc
        else
          { total := acc.total + amt,
            items := acc.items ++ [(strOr a.name (strOr meta.name (strOr a.code "—")), amt)],
            prefillAssets := recAdd acc.prefillAssets aid amt }

/-- `sug?.categories || []`. -/
def sugCategories (sug : Option ContributionSuggestion) : List CategorySuggestion :=
  match sug with
  | none => []
  | some s => s.categories

/-- `collectCryptoPrefill(sug, metaById)`: the nested loop over
`sug?.categories || []` and `c.assets || []`. -/
def collectCryptoPrefill (sug : Option ContributionSuggestion)
    (metaById : List (String × AssetMeta)) : CryptoPrefill :=
  (sugCategories sug).foldl
    (fun acc c => (c.assets.getD []).foldl (prefillStep metaById) acc)
    ⟨0, [], []⟩

/-- The inclusion predicate of the claim: non-empty `asset_id`, metadata
present with kind `"crypto"`, source not containing `"manual-quantity"`
(wallet-balance backed), and a finite strictly positive amount. -/
def cryptoIncluded (metaById : List (String × AssetMeta))
    (a : AssetBuySuggestion) : Bool :=
  let aid := strOr a.asset_id ""
  if aid = "" then false
  else
    match List.lookup aid metaById with
    | none => false
    | some meta =>
      if meta.kind ≠ "crypto" then false
      else if strHas (strOr meta.source "") "manual-quantity" then false
      else if a.amount_cny.orZero ≤ 0 then false
      else true

/-- The display item produced for an included entry:
`a.name || meta.name || a.code || "—"` with the entry's amount. -/
def cryptoItemOf (metaById : List (String × AssetMeta))
    (a : AssetBuySuggestion) : String × ℚ :=
  (strOr a.name
      (strOr
        (match List.lookup (strOr a.asset_id "") metaById with
          | some meta => meta.name
          | none => none)
        (strOr a.code "—")),
    a.amount_cny.orZero)

/-- All suggestion entries in iteration order (the flattening of the nested
loops of `collectCryptoPrefill`). -/
def suggestionAssets (sug : Option ContributionSuggestion) : List AssetBuySuggestion :=
  (sugCategories sug).flatMap (fun c => c.assets.getD [])

/-- Sum of the values of a JS record modelled as an association list. -/
def recValsSum (m : List (String × ℚ)) : ℚ := (m.map Prod.snd).sum

theorem recAdd_sum (m : List (String × ℚ)) (k : String) (v : ℚ) :
    recValsSum (recAdd m k v) = recValsSum m + v := by
  induction m with
  | nil => simp [recAdd, recValsSum]
  | cons hd tl ih =>
    obtain ⟨k', v'⟩ := hd
    by_cases h : k' = k
    · simp [recAdd, h, recValsSum]
      ring
    · simp [recAdd, h, recValsSum] at ih ⊢
      rw [ih]
      ring

theorem prefillStep_eq (m : List (String × AssetMeta)) (acc : CryptoPrefill)
    (a : AssetBuySuggestion) :
    prefillStep m acc a =
      if cryptoIncluded m a then
        { total := acc.total + a.amount_cny.orZero,
          items := acc.items ++ [cryptoItemOf m a],
          prefillAssets := recAdd acc.prefillAssets (strOr a.asset_id "") a.amount_cny.orZero }
      else acc := by
  unfold prefillStep cryptoIncluded cryptoItemOf
  by_cases h1 : strOr a.asset_id "" = ""
  · simp [h1]
  · rcases hlk : List.lookup (strOr a.asset_id "") m with _ | meta
    · simp [h1, hlk]
    · by_cases h2 : meta.kind ≠ "crypto"
      · simp [h1, hlk, h2]
      · by_cases h3 : strHas (strOr meta.source "") "manual-quantity"
        · simp [h1, hlk, h2, h3]
        · by_cases h4 : a.amount_cny.orZero ≤ 0
          · simp [h1, hlk, h2, h3, h4]
          · simp [h1, hlk, h2, h3, h4]

theorem foldl_prefillStep (m : List (String × AssetMeta))
    (l : List AssetBuySuggestion) (acc : CryptoPrefill) :
    l.foldl (prefillStep m) acc =
      { total := acc.total + ((l.filter (cryptoIncluded m)).map
            (fun a => a.amount_cny.orZero)).sum,
        items := acc.items ++ (l.filter (cryptoIncluded m)).map (cryptoItemOf m),
        prefillAssets := (l.filter (cryptoIncluded m)).foldl
          (fun pa a => recAdd pa (strOr a.asset_id "") a.amount_cny.orZero)
          acc.prefillAssets } := by
  induction l generalizing acc with
  | nil => simp
  | cons hd tl ih =>
    rw [List.foldl_cons, prefillStep_eq]
    by_cases h : cryptoIncluded m hd
    · simp only [h, if_true, List.filter_cons, List.map_cons, List.sum_cons]
      rw [ih]
      simp [add_assoc]
    · simp only [h, if_false, List.filter_cons, Bool.false_eq_true]
      rw [ih]

/-- **C5.** `collectCryptoPrefill` includes exactly the entries with a
non-empty `asset_id`, existing metadata of kind `"crypto"`, a source not
containing `"manual-quantity"`, and a finite strictly positive amount; its
`total` is the sum of the included amounts and also the sum of the values of
the returned `prefillAssets` record. -/
theorem collectCryptoPrefill_characterization (sug : Option ContributionSuggestion)
    (m : List (String × AssetMeta)) :
    (collectCryptoPrefill sug m).items =
        ((suggestionAssets sug).filter (cryptoIncluded m)).map (cryptoItemOf m) ∧
      (collectCryptoPrefill sug m).total =
        (((suggestionAssets sug).filter (cryptoIncluded m)).map
            (fun a => a.amount_cny.orZero)).sum ∧
      recValsSum (collectCryptoPrefill sug m).prefillAssets =
        (collectCryptoPrefill sug m).total := by
  have key : ∀ (cats : List CategorySuggestion) (acc : CryptoPrefill),
      cats.foldl (fun acc c => (c.assets.getD []).foldl (prefillStep m) acc) acc =
        (cats.flatMap (fun c => c.assets.getD [])).foldl (prefillStep m) acc := by
    intro cats
    induction cats with
    | nil => intro acc; simp
    | cons hd tl ih =>
      intro acc
      simp only [List.foldl_cons, List.flatMap_cons, List.foldl_append]
      exact ih _
  have hsum : ∀ (pa : List (String × ℚ)) (l : List AssetBuySuggestion),
      recValsSum (l.foldl
          (fun pa a => recAdd pa (strOr a.asset_id "") a.amount_cny.orZero) pa) =
        recValsSum pa + (l.map (fun a => a.amount_cny.orZero)).sum := by
    intro pa l
    induction l generalizing pa with
    | nil => simp
    | cons hd tl ih =>
      simp only [List.foldl_cons, List.map_cons, List.sum_cons]
      rw [ih, recAdd_sum]
      ring
  unfold collectCryptoPrefill suggestionAssets
  rw [key, foldl_prefillStep]
  refine ⟨by simp, by simp, ?_⟩
  simp only
  rw [hsum]
  simp [recValsSum]

/-! ## The allocation panel's two-phase client state (source `part_002`)

React state of `AllocationPanel` plus the state transitions performed by
`suggestM.onSuccess` (lines 93–107), `confirmCryptoM.onSuccess` and the
request builders `showSuggest` (lines 169–176) and `confirmCryptoM.mutationFn`
(lines 111–123).  Network calls are modelled by their arguments/results:
phase-2 requests are values of `ConfirmRequest`, an `Except.error` means the
mutation throws before any request is issued. -/

/-- The caller-held panel state. `contributionNum` is `Number(contribution)`
of the free-text input (`Number("") = 0`, so it also models
`Number(contribution || 0)`). -/
structure ClientState where
  contributionNum : JNum
  contributionTotal : Option ℚ
  contributionRemaining : Option ℚ
  suggestion : Option ContributionSuggestion
  cryptoBaseline : Option (List (String × ℚ))
  expectedCrypto : Option (List (String × ℚ))
  prefillAssets : Option (List (String × ℚ))
deriving DecidableEq

/-- A phase-2 `suggest-after-crypto` request with its explicit caller-held
arguments (`contribution`, `baseline`, `expected`, `slip_pct`). -/
structure ConfirmRequest where
  contribution : ℚ
  baseline : List (String × ℚ)
  expected : List (String × ℚ)
  slip_pct : ℚ
deriving DecidableEq

/-- `Number(contributionTotal ?? contribution ?? 0)` in
`confirmCryptoM.mutationFn`. -/
def confirmBaseAmount (st : ClientState) : JNum :=
  match st.contributionTotal with
  | some t => .fin t
  | none => st.contributionNum

/-- `confirmCryptoM.mutationFn` (`part_002` lines 111–123): reject a
non-finite or non-positive amount, then a missing baseline, then a missing or
empty expected map, and only then build the request from the caller-held
state and `readSlipPct(settings)`. -/
def confirmBuild (settings : Option SettingsRec) (st : ClientState) :
    Except String ConfirmRequest :=
  match confirmBaseAmount st with
  | .nan => .error "invalid amount"
  | .fin q =>
    if q ≤ 0 then .error "invalid amount"
    else
      match st.cryptoBaseline with
      | none => .error "missing baseline"
      | some b =>
        match st.expectedCrypto with
        | none => .error "missing expected"
        | some e =>
          if e = [] then .error "missing expected"
          else .ok ⟨q, b, e, readSlipPct settings⟩

/-- `suggestM.onSuccess` (`part_002` lines 93–107): store the suggestion, set
both the total and the remaining contribution to the suggested amount, refresh
the expected crypto map when no prefill is pending, and store the baseline
snapshot result (`none` models the `catch` branch, `some` the fetched
`snap.assets || {}`). -/
def suggestSuccess (st : ClientState) (sug : ContributionSuggestion) (amt : ℚ)
    (metaById : List (String × AssetMeta))
    (snap : Option (List (String × ℚ))) : ClientState :=
  let cryptoInfo := collectCryptoPrefill (some sug) metaById
  let prefillSum : ℚ := match st.prefillAssets with | none => 0 | some l => recValsSum l
  { st with
    suggestion := some sug
    contributionTotal := some amt
    contributionRemaining := some amt
    expectedCrypto :=
      if prefillSum ≤ 0 then
        (if 0 < cryptoInfo.total then some cryptoInfo.prefillAssets else none)
      else st.expectedCrypto
    cryptoBaseline := snap }

/-- `confirmCryptoM.onSuccess`: store the new suggestion and its
`prefill_assets`, update the remaining contribution when the payload carries a
finite `contribution_remaining`, and leave `contributionTotal`,
`cryptoBaseline`, `expectedCrypto` untouched. -/
def confirmSuccess (st : ClientState) (sug : ContributionSuggestion) : ClientState :=
  let pa := sug.prefill_assets.getD []
  { st with
    suggestion := some sug
    prefillAssets := if pa = [] then none else some pa
    contributionRemaining :=
      match sug.contribution_remaining.toNumber with
      | .fin q => some q
      | .nan => st.contributionRemaining }

/-- A sequence of successful phase-2 confirmations applied to the state. -/
def applyConfirms (st : ClientState) (sugs : List ContributionSuggestion) : ClientState :=
  sugs.foldl confirmSuccess st

/-- The outcome of clicking 计算建议: either only a warning toast
(no request), or a suggest request for the parsed amount. -/
inductive SuggestOutcome where
  | warnInvalid : SuggestOutcome
  | request (amt : ℚ) : SuggestOutcome
deriving DecidableEq

/-- `showSuggest` (`part_002` lines 169–176): `Number(contribution || 0)`
must be finite and positive, otherwise only a warning is shown. -/
def showSuggest (contributionNum : JNum) : SuggestOutcome :=
  match contributionNum with
  | .nan => .warnInvalid
  | .fin q => if q ≤ 0 then .warnInvalid else .request q

theorem applyConfirms_preserves (st : ClientState) (sugs : List ContributionSuggestion) :
    (applyConfirms st sugs).contributionTotal = st.contributionTotal ∧
      (applyConfirms st sugs).cryptoBaseline = st.cryptoBaseline ∧
      (applyConfirms st sugs).expectedCrypto = st.expectedCrypto := by
  induction sugs generalizing st with
  | nil => exact ⟨rfl, rfl, rfl⟩
  | cons hd tl ih =>
    have h := ih (confirmSuccess st hd)
    simpa [applyConfirms, confirmSuccess] using h

/-- **C3.** If phase 1 completed with a valid amount but the baseline snapshot
could not be captured (the caller-held baseline is `null`), then every phase-2
confirm attempt — after any number of confirmations — is rejected with the
`"missing baseline"` error and no request value is produced; a zero baseline
is never substituted. -/
theorem confirm_rejected_without_baseline (settings : Option SettingsRec)
    (st0 : ClientState) (sug : ContributionSuggestion) (amt : ℚ)
    (metaById : List (String × AssetMeta)) (sugs : List ContributionSuggestion)
    (hamt : 0 < amt) :
    confirmBuild settings (applyConfirms (suggestSuccess st0 sug amt metaById none) sugs) =
      .error "missing baseline" := by
  obtain ⟨htot, hbase, _⟩ :=
    applyConfirms_preserves (suggestSuccess st0 sug amt metaById none) sugs
  have h1 : (suggestSuccess st0 sug amt metaById none).contributionTotal = some amt := rfl
  have h2 : (suggestSuccess st0 sug amt metaById none).cryptoBaseline = none := rfl
  unfold confirmBuild confirmBaseAmount
  rw [htot, h1, hbase, h2]
  simp [not_le.mpr hamt]

/-- **C3 witness.** A concrete phase-1 state with a failed snapshot capture:
the confirm attempt errors with `"missing baseline"`. -/
theorem confirm_rejected_without_baseline_witness :
    (0 : ℚ) < 1 ∧
      confirmBuild none
          (applyConfirms
            (suggestSuccess ⟨.fin 0, none, none, none, none, none, none⟩
              ⟨[], none, .undef, none⟩ 1 [] none) []) =
        .error "missing baseline" :=
  ⟨by norm_num,
    confirm_rejected_without_baseline none ⟨.fin 0, none, none, none, none, none, none⟩
      ⟨[], none, .undef, none⟩ 1 [] [] (by norm_num)⟩

/-- **C6.** A non-positive or non-finite contribution amount is rejected
before any computation: `showSuggest` issues no request (only a warning), and
a phase-2 confirm whose base amount coerces to that value errors with
`"invalid amount"` before building its request. -/
theorem invalid_amount_rejected (j : JNum) (st : ClientState)
    (settings : Option SettingsRec)
    (hj : j = .nan ∨ ∃ q, j = .fin q ∧ q ≤ 0) :
    showSuggest j = .warnInvalid ∧
      (confirmBaseAmount st = j → confirmBuild settings st = .error "invalid amount") := by
  rcases hj with hj | ⟨q, hj, hq⟩
  · subst hj
    exact ⟨rfl, fun h => by unfold confirmBuild; rw [h]⟩
  · subst hj
    refine ⟨by simp [showSuggest, hq], fun h => ?_⟩
    unfold confirmBuild
    rw [h]
    simp [hq]

/-- **C6 witness.** The zero amount: no suggest request, and the confirm flow
fails with `"invalid amount"`. -/
theorem invalid_amount_rejected_witness :
    showSuggest (.fin 0) = .warnInvalid ∧
      confirmBuild none ⟨.fin 0, none, none, none, none, none, none⟩ =
        .error "invalid amount" :=
  ⟨(invalid_amount_rejected (.fin 0) ⟨.fin 0, none, none, none, none, none, none⟩ none
      (Or.inr ⟨0, rfl, le_refl 0⟩)).1,
    (invalid_amount_rejected (.fin 0) ⟨.fin 0, none, none, none, none, none, none⟩ none
      (Or.inr ⟨0, rfl, le_refl 0⟩)).2 rfl⟩

/-- **C4.** A phase-2 request is built entirely from caller-held phase-1
state: after a phase-1 suggest success for amount `amt` with baseline snapshot
`base` (no prior prefill), and any number of later confirmations, the confirm
request carries the original `amt` (the stored `contributionTotal`, not the
remaining amount), exactly the stored baseline `base`, exactly the expected
crypto map computed at phase 1, and the slippage tolerance from the settings;
no other state enters the request. -/
theorem confirm_request_is_phase1_state (settings : Option SettingsRec)
    (st0 : ClientState) (sug : ContributionSuggestion) (amt : ℚ)
    (metaById : List (String × AssetMeta)) (base : List (String × ℚ))
    (sugs : List ContributionSuggestion)
    (h0 : st0.prefillAssets = none) (hamt : 0 < amt)
    (hT : 0 < (collectCryptoPrefill (some sug) metaById).total)
    (hne : (collectCryptoPrefill (some sug) metaById).prefillAssets ≠ []) :
    confirmBuild settings
        (applyConfirms (suggestSuccess st0 sug amt metaById (some base)) sugs) =
      .ok ⟨amt, base, (collectCryptoPrefill (some sug) metaById).prefillAssets,
        readSlipPct settings⟩ ∧
      (applyConfirms (suggestSuccess st0 sug amt metaById (some base)) sugs).contributionTotal =
        some amt := by
  obtain ⟨htot, hbase, hexp⟩ :=
    applyConfirms_preserves (suggestSuccess st0 sug amt metaById (some base)) sugs
  have h1 : (suggestSuccess st0 sug amt metaById (some base)).contributionTotal = some amt := rfl
  have h2 : (suggestSuccess st0 sug amt metaById (some base)).cryptoBaseline = some base := rfl
  have h3 : (suggestSuccess st0 sug amt metaById (some base)).expectedCrypto =
      some (collectCryptoPrefill (some sug) metaById).prefillAssets := by
    simp [suggestSuccess, h0, hT]
  refine ⟨?_, htot.trans h1⟩
  unfold confirmBuild confirmBaseAmount
  rw [htot, h1, hbase, h2, hexp, h3]
  simp [not_le.mpr hamt, hne]

/-- **C4 witness.** A concrete phase-1 success (contribution 100, one
wallet-backed crypto asset) followed by a confirm: the request carries the
phase-1 amount, baseline, expected map and slippage tolerance. -/
theorem confirm_request_is_phase1_state_witness :
    (0 : ℚ) < 100 ∧
      confirmBuild none
          (applyConfirms
            (suggestSuccess ⟨.fin 0, none, none, none, none, none, none⟩
              ⟨[⟨"c1", none, .jnull, .jnull, .jnull, .jnull, .jnull, .jnull,
                  some [⟨some "btc", some "BTC", none, .jnum (.fin 100), .jnull⟩]⟩],
                none, .undef, none⟩
              100
              [("btc", ⟨"crypto", some "wallet", some "BTC"⟩)]
              (some [("btc", 0)])) []) =
        .ok ⟨100, [("btc", 0)],
          (collectCryptoPrefill
              (some ⟨[⟨"c1", none, .jnull, .jnull, .jnull, .jnull, .jnull, .jnull,
                  some [⟨some "btc", some "BTC", none, .jnum (.fin 100), .jnull⟩]⟩],
                none, .undef, none⟩)
              [("btc", ⟨"crypto", some "wallet", some "BTC"⟩)]).prefillAssets,
          readSlipPct none⟩ := by
  refine ⟨by norm_num, ?_⟩
  exact (confirm_request_is_phase1_state none ⟨.fin 0, none, none, none, none, none, none⟩
    _ 100 _ [("btc", 0)] [] rfl (by norm_num)
    (by norm_num +decide [collectCryptoPrefill, sugCategories, prefillStep, strOr,
      List.lookup, strHas, chHas, chStart, JVal.orZero, JVal.toNumber, recAdd])
    (by simp +decide [collectCryptoPrefill, sugCategories, prefillStep, strOr,
      List.lookup, strHas, chHas, chStart, JVal.orZero, JVal.toNumber, recAdd])).1

/-! ## Ledger page rendering (source `web/src/app/ledger/page.tsx`)

The portfolio-total card (lines 63–68 and 95–110) and the per-asset rows
(lines 200–219). -/

/-- The `total` object of the ledger metrics payload. -/
structure TotalMetrics where
  principal : JVal
  current_value : JVal
  profit : JVal
  xirr_annual : JVal
deriving DecidableEq

/-- One `per_asset` row of the ledger metrics payload. -/
structure AssetMetricsRow where
  id : String
  kind : String
  code : String
  name : String
  principal : JVal
  current_value : JVal
  profit : JVal
  xirr_annual : JVal
deriving DecidableEq

/-- `Number(v) * 100` (as in `Number(t.xirr_annual) * 100`). -/
def jmul100 : JNum → JNum
  | .nan => .nan
  | .fin q => .fin (q * 100)

/-- `Number(v ?? 0)`: nullish coalescing to `0` before coercion. -/
def coalesce0 (v : JVal) : JNum :=
  if v.isNullish then .fin 0 else v.toNumber

/-- The JS `!== 0` test on a coerced number (`NaN !== 0` is true). -/
def jneZero : JNum → Bool
  | .nan => true
  | .fin q => decide (q ≠ 0)

/-- `const profit = total?.profit == null ? null : Number(total.profit)`. -/
def totalProfitNum (total : Option TotalMetrics) : Option JNum :=
  match total with
  | none => none
  | some t => if t.profit.isNullish then none else some t.profit.toNumber

/-- `const xirr = total?.xirr_annual == null ? null : Number(total.xirr_annual) * 100`. -/
def totalXirrNum (total : Option TotalMetrics) : Option JNum :=
  match total with
  | none => none
  | some t => if t.xirr_annual.isNullish then none else some (jmul100 t.xirr_annual.toNumber)

/-- `showProfit`: the total exists and the xirr is non-null or any of
principal/current value/profit coerces to a value `!== 0`. -/
def showProfit (total : Option TotalMetrics) : Bool :=
  match total with
  | none => false
  | some t =>
    (totalXirrNum (some t)).isSome || jneZero (coalesce0 t.principal) ||
      jneZero (coalesce0 t.current_value) || jneZero (coalesce0 t.profit)

/-- The profit region of the total card:
`showProfit ? fmtSignedCny(profit, 2) : "—"` (with `Number(null) = 0`). -/
def profitRegionCell (total : Option TotalMetrics) : Cell :=
  if showProfit total then
    fmtSignedCnyCell (match totalProfitNum total with | none => .fin 0 | some j => j) 2
  else .dash

/-- The annualized-return span of the total card:
`showProfit && xirr != null ? (fmtPct(xirr, 2)) : null` — `none` models the
span not being rendered at all. -/
def xirrSpanCell (total : Option TotalMetrics) : Option Cell :=
  if showProfit total then (totalXirrNum total).map (fun j => fmtPctCell j 2)
  else none

/-- The principal line of the total card: `fmtCny(total?.principal, 2)`. -/
def totalPrincipalCell (total : Option TotalMetrics) : Cell :=
  fmtCnyCell (match total with | none => JNum.nan | some t => t.principal.toNumber) 2

/-- The current-value figure of the total card: `fmtCny(total?.current_value, 2)`. -/
def totalCurrentCell (total : Option TotalMetrics) : Cell :=
  fmtCnyCell (match total with | none => JNum.nan | some t => t.current_value.toNumber) 2

/-- Per-asset annualized column:
`x == null ? "—" : fmtPct(x, 2)` with `x = a.xirr_annual == null ? null : Number(a.xirr_annual) * 100`. -/
def assetXirrCell (a : AssetMetricsRow) : Cell :=
  if a.xirr_annual.isNullish then .dash
  else fmtPctCell (jmul100 a.xirr_annual.toNumber) 2

/-- Per-asset principal column: `fmtCny(a.principal, 2)`. -/
def assetPrincipalCell (a : AssetMetricsRow) : Cell :=
  fmtCnyCell a.principal.toNumber 2

/-- Per-asset current-value column: `fmtCny(a.current_value, 2)`. -/
def assetCurrentCell (a : AssetMetricsRow) : Cell :=
  fmtCnyCell a.current_value.toNumber 2

/-- Per-asset profit column: `fmtSignedCny(Number(a.profit || 0), 2)`. -/
def assetProfitCell (a : AssetMetricsRow) : Cell :=
  fmtSignedCnyCell (.fin a.profit.orZero) 2

/-- **C7 counterexample.** A total payload with `xirr_annual = null` but a
nonzero principal: the total card's annualized figure is *omitted* (`none`),
not rendered as the `"—"` placeholder the claim asserts. -/
theorem total_xirr_absent_not_dash :
    (TotalMetrics.mk (.jnum (.fin 100)) (.jnum (.fin 110)) (.jnum (.fin 10))
          .jnull).xirr_annual.isNullish = true ∧
      xirrSpanCell
          (some (TotalMetrics.mk (.jnum (.fin 100)) (.jnum (.fin 110)) (.jnum (.fin 10))
            .jnull)) = none ∧
      xirrSpanCell
          (some (TotalMetrics.mk (.jnum (.fin 100)) (.jnum (.fin 110)) (.jnum (.fin 10))
            .jnull)) ≠ some Cell.dash := by
  refine ⟨rfl, ?_, ?_⟩ <;>
    simp +decide [xirrSpanCell, totalXirrNum, JVal.isNullish]

/-- **C7 (amended).** When `xirr_annual` is null, the per-asset row renders the
`"—"` placeholder while the total card omits the annualized span entirely; in
both cases no error is raised and principal, current value and profit are
still rendered: the per-asset principal/current-value columns show the
currency figures of their finite values, the profit column its coerced value,
and on the total card a nonzero principal still yields the profit figure. -/
theorem xirr_absent_rendered_absent (t : TotalMetrics) (a : AssetMetricsRow)
    (ht : t.xirr_annual.isNullish = true) (ha : a.xirr_annual.isNullish = true) :
    xirrSpanCell (some t) = none ∧
      assetXirrCell a = .dash ∧
      (∀ q, a.principal.toNumber = .fin q → assetPrincipalCell a = .cny q 2) ∧
      (∀ q, a.current_value.toNumber = .fin q → assetCurrentCell a = .cny q 2) ∧
      assetProfitCell a = .signed a.profit.orZero 2 ∧
      (∀ q, t.principal.toNumber = .fin q → totalPrincipalCell (some t) = .cny q 2) ∧
      (∀ q, t.current_value.toNumber = .fin q → totalCurrentCell (some t) = .cny q 2) ∧
      (jneZero (coalesce0 t.principal) = true →
        showProfit (some t) = true ∧
          profitRegionCell (some t) =
            fmtSignedCnyCell
              (match totalProfitNum (some t) with | none => .fin 0 | some j => j) 2) := by
  refine ⟨?_, ?_, ?_, ?_, ?_, ?_, ?_, ?_⟩
  · simp [xirrSpanCell, totalXirrNum, ht]
  · simp [assetXirrCell, ha]
  · intro q hq
    simp [assetPrincipalCell, fmtCnyCell, hq]
  · intro q hq
    simp [assetCurrentCell, fmtCnyCell, hq]
  · rfl
  · intro q hq
    simp [totalPrincipalCell, fmtCnyCell, hq]
  · intro q hq
    simp [totalCurrentCell, fmtCnyCell, hq]
  · intro hp
    have hsp : showProfit (some t) = true := by
      simp [showProfit, hp]
    exact ⟨hsp, by simp [profitRegionCell, hsp]⟩

/-- **C7 witness.** A concrete payload with absent xirr everywhere: the asset
row shows `"—"`, the total span is omitted, and the other figures are shown. -/
theorem xirr_absent_rendered_absent_witness :
    (JVal.jnull.isNullish = true) ∧
      xirrSpanCell
          (some (TotalMetrics.mk (.jnum (.fin 100)) (.jnum (.fin 110)) (.jnum (.fin 10))
            .jnull)) = none ∧
      assetXirrCell
          (AssetMetricsRow.mk "a1" "cn" "510300" "沪深300"
            (.jnum (.fin 50)) (.jnum (.fin 55)) (.jnum (.fin 5)) .jnull) = .dash ∧
      assetPrincipalCell
          (AssetMetricsRow.mk "a1" "cn" "510300" "沪深300"
            (.jnum (.fin 50)) (.jnum (.fin 55)) (.jnum (.fin 5)) .jnull) = .cny 50 2 := by
  have h := xirr_absent_rendered_absent
    (TotalMetrics.mk (.jnum (.fin 100)) (.jnum (.fin 110)) (.jnum (.fin 10)) .jnull)
    (AssetMetricsRow.mk "a1" "cn" "510300" "沪深300"
      (.jnum (.fin 50)) (.jnum (.fin 55)) (.jnum (.fin 5)) .jnull)
    rfl rfl
  exact ⟨rfl, h.1, h.2.1, h.2.2.1 50 rfl⟩

/-! ## Assets page grouping: `byCategory` (source `part_005`, lines 54–66)

The JS record `map` is modelled as an insertion-ordered association list with
the record semantics of the source: `map[c.id] = []` overwrites in place,
`map[cid].push(a)` appends to the entry, `map[cid]` is a keyed lookup.  The
`localeCompare("zh-CN")` sort is modelled by an insertion sort over the
code-point order of the labels; only the induced permutation of each group
matters for the stated partition properties. -/

/-- A portfolio asset as read by the assets page
(the fields used by `byCategory` and `labelOf`). -/
structure PortfolioAsset where
  id : String
  kind : String
  code : Option String
  name : Option String
  coingecko_id : Option String
  category_id : Option String
deriving DecidableEq

/-- `labelOf(a)`: `(a.name || a.code || a.coingecko_id || (kind === "cash" ? "现金" : a.id)).trim()`. -/
def labelOf (a : PortfolioAsset) : String :=
  jsTrim (strOr a.name (strOr a.code (strOr a.coingecko_id
    (if a.kind = "cash" then "现金" else a.id))))

/-- `rec[k] = v` on a JS record: overwrite in place or append. -/
def recSet {β : Type} (m : List (String × β)) (k : String) (v : β) : List (String × β) :=
  match m with
  | [] => [(k, v)]
  | (k', v') :: rest => if k' = k then (k, v) :: rest else (k', v') :: recSet rest k v

/-- `rec[k]` on a JS record. -/
def recGet {β : Type} (m : List (String × β)) (k : String) : Option β :=
  match m with
  | [] => none
  | (k', v') :: rest => if k' = k then some v' else recGet rest k

/-- `rec[k].push(a)`: append to the entry's list (no-op on a missing key —
the source only pushes after checking `map[cid]`). -/
def recPush (m : List (String × List PortfolioAsset)) (k : String)
    (a : PortfolioAsset) : List (String × List PortfolioAsset) :=
  match m with
  | [] => []
  | (k', l) :: rest =>
    if k' = k then (k', l ++ [a]) :: rest else (k', l) :: recPush rest k a

/-- `for (const c of categories) map[c.id] = []`. -/
def initMap (categories : List Category) : List (String × List PortfolioAsset) :=
  categories.foldl (fun m c => recSet m c.id ([] : List PortfolioAsset)) []

/-- One iteration of the asset loop: trim the `category_id`, push into the
matching group when the key exists in the map, otherwise into `unassigned`. -/
def assignAsset (st : List (String × List PortfolioAsset) × List PortfolioAsset)
    (a : PortfolioAsset) : List (String × List PortfolioAsset) × List PortfolioAsset :=
  let cid := jsTrim (strOr a.category_id "")
  if cid = "" then (st.1, st.2 ++ [a])
  else
    match recGet st.1 cid with
    | some _ => (recPush st.1 cid a, st.2)
    | none => (st.1, st.2 ++ [a])

/-- Insertion into a list sorted by `le`. -/
def insertBy {α : Type} (le : α → α → Bool) (x : α) : List α → List α
  | [] => [x]
  | y :: t => if le x y then x :: y :: t else y :: insertBy le x t

/-- Insertion sort by `le`. -/
def sortBy {α : Type} (le : α → α → Bool) : List α → List α
  | [] => []
  | x :: t => insertBy le x (sortBy le t)

/-- The label comparison used for the group sort (`localeCompare("zh-CN")`
abstracted to the code-point order on labels). -/
def labelLe (x y : PortfolioAsset) : Bool := decide (labelOf x ≤ labelOf y)

/-- `byCategory`: initialize one empty group per category id, distribute every
asset into its trimmed category's group or into `unassigned`, then sort each
group and the unassigned list by label. -/
def byCategory (categories : List Category) (assets : List PortfolioAsset) :
    List (String × List PortfolioAsset) × List PortfolioAsset :=
  let st := assets.foldl assignAsset (initMap categories, [])
  (st.1.map (fun p => (p.1, sortBy labelLe p.2)), sortBy labelLe st.2)

theorem insertBy_length {α : Type} (le : α → α → Bool) (x : α) (l : List α) :
    (insertBy le x l).length = l.length + 1 := by
  induction l with
  | nil => rfl
  | cons y t ih =>
    unfold insertBy
    by_cases h : le x y
    · simp [h]
    · simp [h, ih]

theorem sortBy_length {α : Type} (le : α → α → Bool) (l : List α) :
    (sortBy le l).length = l.length := by
  induction l with
  | nil => rfl
  | cons x t ih => simp [sortBy, insertBy_length, ih]

theorem insertBy_mem {α : Type} (le : α → α → Bool) (x a : α) (l : List α) :
    a ∈ insertBy le x l ↔ a = x ∨ a ∈ l := by
  induction l with
  | nil => simp [insertBy]
  | cons y t ih =>
    unfold insertBy
    by_cases h : le x y
    · simp [h]
    · simp [h, ih]
      tauto

theorem sortBy_mem {α : Type} (le : α → α → Bool) (a : α) (l : List α) :
    a ∈ sortBy le l ↔ a ∈ l := by
  induction l with
  | nil => simp [sortBy]
  | cons x t ih => simp [sortBy, insertBy_mem, ih]

/-- Sum of the group sizes of the record. -/
def mapSize (m : List (String × List PortfolioAsset)) : ℕ :=
  (m.map (fun p => p.2.length)).sum

theorem recPush_size (m : List (String × List PortfolioAsset)) (k : String)
    (a : PortfolioAsset) (h : (recGet m k).isSome) :
    mapSize (recPush m k a) = mapSize m + 1 := by
  induction m with
  | nil => simp [recGet] at h
  | cons hd tl ih =>
    obtain ⟨k', l⟩ := hd
    by_cases hk : k' = k
    · simp [recPush, hk, mapSize]
      ring
    · have h' : (recGet tl k).isSome := by simpa [recGet, hk] using h
      simp [recPush, hk, mapSize] at ih ⊢
      rw [ih h']
      ring

theorem recPush_keys (m : List (String × List PortfolioAsset)) (k k' : String)
    (a : PortfolioAsset) : (recGet (recPush m k a) k').isSome = (recGet m k').isSome := by
  induction m with
  | nil => simp [recPush]
  | cons hd tl ih =>
    obtain ⟨k0, l⟩ := hd
    by_cases hk : k0 = k
    · subst hk
      by_cases hk' : k0 = k'
      · subst hk'
        simp [recPush, recGet]
      · simp [recPush, recGet, hk']
    · by_cases hk' : k0 = k'
      · subst hk'
        simp [recPush, recGet, hk]
      · simp [recPush, recGet, hk, hk', ih]

theorem recPush_mem (m : List (String × List PortfolioAsset)) (c : String)
    (a : PortfolioAsset) (k : String) (l' : List PortfolioAsset)
    (h : (k, l') ∈ recPush m c a) :
    (k, l') ∈ m ∨ (k = c ∧ ∃ l, (k, l) ∈ m ∧ l' = l ++ [a]) := by
  induction m with
  | nil => simp [recPush] at h
  | cons hd tl ih =>
    obtain ⟨k0, l0⟩ := hd
    by_cases hk : k0 = c
    · subst hk
      simp only [recPush, if_true] at h
      rcases List.mem_cons.mp h with h | h
      · rw [Prod.mk.injEq] at h
        obtain ⟨h1, h2⟩ := h
        subst h1
        exact Or.inr ⟨rfl, l0, List.mem_cons_self _ _, h2⟩
      · exact Or.inl (List.mem_cons_of_mem _ h)
    · simp only [recPush, hk, if_false] at h
      rcases List.mem_cons.mp h with h | h
      · exact Or.inl (List.mem_cons.mpr (Or.inl h))
      · rcases ih h with h' | ⟨hkc, l, hl, hl'⟩
        · exact Or.inl (List.mem_cons_of_mem _ h')
        · exact Or.inr ⟨hkc, l, List.mem_cons_of_mem _ hl, hl'⟩

/-- Total number of assets held by the grouping state. -/
def stSize (st : List (String × List PortfolioAsset) × List PortfolioAsset) : ℕ :=
  mapSize st.1 + st.2.length

theorem recSet_mem {β : Type} (m : List (String × β)) (k : String) (v : β)
    (p : String × β) (h : p ∈ recSet m k v) : p ∈ m ∨ p = (k, v) := by
  induction m with
  | nil => simp [recSet] at h; exact Or.inr h
  | cons hd tl ih =>
    obtain ⟨k0, v0⟩ := hd
    by_cases hk : k0 = k
    · simp only [recSet, hk, if_true] at h
      rcases List.mem_cons.mp h with h | h
      · exact Or.inr h
      · exact Or.inl (List.mem_cons_of_mem _ h)
    · simp only [recSet, hk, if_false] at h
      rcases List.mem_cons.mp h with h | h
      · exact Or.inl (List.mem_cons.mpr (Or.inl h))
      · rcases ih h with h | h
        · exact Or.inl (List.mem_cons_of_mem _ h)
        · exact Or.inr h

theorem recGet_recSet {β : Type} (m : List (String × β)) (k k' : String) (v : β) :
    recGet (recSet m k v) k' = if k = k' then some v else recGet m k' := by
  induction m with
  | nil => simp [recSet, recGet]
  | cons hd tl ih =>
    obtain ⟨k0, v0⟩ := hd
    by_cases hk : k0 = k
    · subst hk
      by_cases hk' : k0 = k'
      · subst hk'
        simp [recSet, recGet]
      · simp [recSet, recGet, hk']
    · by_cases hk' : k0 = k'
      · subst hk'
        simp [recSet, recGet, hk, Ne.symm hk]
      · simp [recSet, recGet, hk, hk', ih]

theorem initMap_entry (categories : List Category) (p : String × List PortfolioAsset)
    (h : p ∈ initMap categories) : p.2 = [] ∧ p.1 ∈ categories.map Category.id := by
  suffices key : ∀ (cats : List Category) (m : List (String × List PortfolioAsset)),
      p ∈ cats.foldl (fun m c => recSet m c.id ([] : List PortfolioAsset)) m →
      (p.2 = [] ∧ p.1 ∈ cats.map Category.id) ∨ p ∈ m by
    rcases key categories [] h with h' | h'
    · exact h'
    · simp at h'
  intro cats
  induction cats with
  | nil => intro m hm; exact Or.inr hm
  | cons c tl ih =>
    intro m hm
    rcases ih _ hm with h' | h'
    · exact Or.inl ⟨h'.1, by simp [h'.2]⟩
    · rcases recSet_mem _ _ _ _ h' with h' | h'
      · exact Or.inr h'
      · subst h'
        exact Or.inl ⟨rfl, by simp⟩

theorem recGet_initMap (categories : List Category) (k : String) :
    (recGet (initMap categories) k).isSome = true ↔ k ∈ categories.map Category.id := by
  suffices key : ∀ (cats : List Category) (m : List (String × List PortfolioAsset)),
      (recGet (cats.foldl (fun m c => recSet m c.id ([] : List PortfolioAsset)) m) k).isSome = true ↔
        k ∈ cats.map Category.id ∨ (recGet m k).isSome = true by
    rw [initMap, key]
    simp [recGet]
  intro cats
  induction cats with
  | nil => intro m; simp
  | cons c tl ih =>
    intro m
    rw [List.foldl_cons, ih]
    by_cases hc : c.id = k
    · simp [recGet_recSet, hc]
    · have hc' : ¬ k = c.id := fun h => hc h.symm
      simp [recGet_recSet, hc, hc', List.mem_map]

theorem mapSize_initMap (categories : List Category) : mapSize (initMap categories) = 0 := by
  unfold mapSize
  apply List.sum_eq_zero
  intro x hx
  obtain ⟨p, hp, rfl⟩ := List.mem_map.mp hx
  simp [(initMap_entry categories p hp).1]

theorem assignAsset_size (st : List (String × List PortfolioAsset) × List PortfolioAsset)
    (a : PortfolioAsset) : stSize (assignAsset st a) = stSize st + 1 := by
  by_cases h0 : jsTrim (strOr a.category_id "") = ""
  · simp [assignAsset, h0, stSize]
    omega
  · rcases hg : recGet st.1 (jsTrim (strOr a.category_id "")) with _ | l
    · simp [assignAsset, h0, hg, stSize]
      omega
    · have hsz := recPush_size st.1 (jsTrim (strOr a.category_id "")) a (by simp [hg])
      simp [assignAsset, h0, hg, stSize, hsz]
      omega

theorem foldl_assign_size (assets : List PortfolioAsset)
    (st : List (String × List PortfolioAsset) × List PortfolioAsset) :
    stSize (assets.foldl assignAsset st) = stSize st + assets.length := by
  induction assets generalizing st with
  | nil => simp
  | cons a tl ih =>
    rw [List.foldl_cons, ih, assignAsset_size]
    simp [List.length_cons]
    omega

/-- The grouping invariant: every group member's trimmed `category_id` equals
the group key, which is one of the category ids; every unassigned asset has an
empty or dangling trimmed `category_id`. -/
def groupInv (categories : List Category)
    (st : List (String × List PortfolioAsset) × List PortfolioAsset) : Prop :=
  (∀ k l, (k, l) ∈ st.1 →
    (∀ x ∈ l, jsTrim (strOr x.category_id "") = k) ∧ k ∈ categories.map Category.id) ∧
  (∀ x ∈ st.2, jsTrim (strOr x.category_id "") = "" ∨
    (recGet st.1 (jsTrim (strOr x.category_id ""))).isSome = false)

theorem assignAsset_keys (st : List (String × List PortfolioAsset) × List PortfolioAsset)
    (a : PortfolioAsset) (k : String) :
    (recGet (assignAsset st a).1 k).isSome = (recGet st.1 k).isSome := by
  by_cases h0 : jsTrim (strOr a.category_id "") = ""
  · simp [assignAsset, h0]
  · rcases hg : recGet st.1 (jsTrim (strOr a.category_id "")) with _ | l
    · simp [assignAsset, h0, hg]
    · simp [assignAsset, h0, hg, recPush_keys]

theorem assignAsset_inv (categories : List Category)
    (st : List (String × List PortfolioAsset) × List PortfolioAsset)
    (a : PortfolioAsset) (h : groupInv categories st) :
    groupInv categories (assignAsset st a) := by
  obtain ⟨hA, hB⟩ := h
  by_cases h0 : jsTrim (strOr a.category_id "") = ""
  · refine ⟨?_, ?_⟩
    · intro k l hkl
      exact hA k l (by simpa [assignAsset, h0] using hkl)
    · intro x hx
      have hx2 : x ∈ st.2 ∨ x = a := by simpa [assignAsset, h0] using hx
      rcases hx2 with hx | rfl
      · simpa [assignAsset, h0] using hB x hx
      · exact Or.inl h0
  · rcases hg : recGet st.1 (jsTrim (strOr a.category_id "")) with _ | l0
    · refine ⟨?_, ?_⟩
      · intro k l hkl
        exact hA k l (by simpa [assignAsset, h0, hg] using hkl)
      · intro x hx
        have hx2 : x ∈ st.2 ∨ x = a := by simpa [assignAsset, h0, hg] using hx
        rcases hx2 with hx | rfl
        · simpa [assignAsset, h0, hg] using hB x hx
        · exact Or.inr (by simp [assignAsset, h0, hg])
    · refine ⟨?_, ?_⟩
      · intro k l hkl
        have hkl' : (k, l) ∈ recPush st.1 (jsTrim (strOr a.category_id "")) a := by
          simpa [assignAsset, h0, hg] using hkl
        rcases recPush_mem _ _ _ _ _ hkl' with hold | ⟨hk, l1, hl1, rfl⟩
        · exact hA k l hold
        · refine ⟨?_, (hA k l1 hl1).2⟩
          intro x hx
          rcases List.mem_append.mp hx with hx | hx
          · exact (hA k l1 hl1).1 x hx
          · simp only [List.mem_singleton] at hx
            subst hx
            exact hk.symm
      · intro x hx
        have hx' : x ∈ st.2 := by simpa [assignAsset, h0, hg] using hx
        rcases hB x hx' with h1 | h1
        · exact Or.inl h1
        · refine Or.inr ?_
          have := recPush_keys st.1 (jsTrim (strOr a.category_id "")) (jsTrim (strOr x.category_id "")) a
          simp [assignAsset, h0, hg, this, h1]

theorem foldl_assign_inv (categories : List Category) (assets : List PortfolioAsset)
    (st : List (String × List PortfolioAsset) × List PortfolioAsset)
    (h : groupInv categories st) :
    groupInv categories (assets.foldl assignAsset st) := by
  induction assets generalizing st with
  | nil => exact h
  | cons a tl ih => exact ih _ (assignAsset_inv categories st a h)

theorem foldl_assign_keys (assets : List PortfolioAsset)
    (st : List (String × List PortfolioAsset) × List PortfolioAsset) (k : String) :
    (recGet (assets.foldl assignAsset st).1 k).isSome = (recGet st.1 k).isSome := by
  induction assets generalizing st with
  | nil => rfl
  | cons a tl ih => rw [List.foldl_cons, ih, assignAsset_keys]

/-- **C10.** `byCategory` is a partition: the group sizes plus the unassigned
count equal the number of input assets; every grouped asset sits under the
category whose id equals its trimmed `category_id` (an existing category id);
every unassigned asset has an empty or dangling trimmed `category_id`. -/
theorem byCategory_partition (categories : List Category) (assets : List PortfolioAsset) :
    ((byCategory categories assets).1.map (fun p => p.2.length)).sum +
        (byCategory categories assets).2.length = assets.length ∧
      (∀ k l, (k, l) ∈ (byCategory categories assets).1 → ∀ x ∈ l,
        jsTrim (strOr x.category_id "") = k ∧ k ∈ categories.map Category.id) ∧
      (∀ x ∈ (byCategory categories assets).2,
        jsTrim (strOr x.category_id "") = "" ∨
          jsTrim (strOr x.category_id "") ∉ categories.map Category.id) := by
  have hinv : groupInv categories (assets.foldl assignAsset (initMap categories, [])) := by
    apply foldl_assign_inv
    refine ⟨?_, ?_⟩
    · intro k l hkl
      have h := initMap_entry categories (k, l) hkl
      have h1 : l = [] := h.1
      refine ⟨fun x hx => ?_, h.2⟩
      rw [h1] at hx
      exact absurd hx (List.not_mem_nil x)
    · intro x hx
      exact absurd hx (List.not_mem_nil x)
  have hkeys := foldl_assign_keys assets (initMap categories, [])
  refine ⟨?_, ?_, ?_⟩
  · have hmap : ((byCategory categories assets).1.map (fun p => p.2.length)).sum =
        mapSize (assets.foldl assignAsset (initMap categories, [])).1 := by
      unfold byCategory mapSize
      rw [List.map_map]
      congr 1
      apply List.map_congr_left
      intro p _
      simp [sortBy_length]
    have hun : (byCategory categories assets).2.length =
        (assets.foldl assignAsset (initMap categories, [])).2.length := by
      unfold byCategory
      simp [sortBy_length]
    rw [hmap, hun]
    have := foldl_assign_size assets (initMap categories, [])
    unfold stSize at this
    rw [mapSize_initMap] at this
    simpa using this
  · intro k l hkl x hx
    obtain ⟨p, hp, heq⟩ := List.mem_map.mp hkl
    rw [Prod.mk.injEq] at heq
    obtain ⟨h1, h2⟩ := heq
    subst h1
    have hx' : x ∈ p.2 := (sortBy_mem labelLe x p.2).mp (h2 ▸ hx)
    have := hinv.1 p.1 p.2 (by simpa using hp)
    exact ⟨this.1 x hx', this.2⟩
  · intro x hx
    have hx' : x ∈ (assets.foldl assignAsset (initMap categories, [])).2 :=
      (sortBy_mem labelLe x _).mp (by simpa [byCategory] using hx)
    rcases hinv.2 x hx' with h1 | h1
    · exact Or.inl h1
    · refine Or.inr ?_
      rw [← recGet_initMap]
      rw [hkeys] at h1
      have h2 : (recGet (initMap categories) (jsTrim (strOr x.category_id ""))).isSome = false := by
        simpa using h1
      simp [h2]

/-- **C10 witness.** One category and two assets (one assigned, one with a
null `category_id`): the grouping is evaluated concretely and the partition
theorem applied to it. -/
theorem byCategory_partition_witness :
    (("c1", [PortfolioAsset.mk "a1" "cn" none (some "B") none (some "c1")]) ∈
        (byCategory [Category.mk "c1" "一" .jnull .jnull .jnull]
          [PortfolioAsset.mk "a1" "cn" none (some "B") none (some "c1"),
            PortfolioAsset.mk "a2" "cash" none (some "A") none none]).1) ∧
      (jsTrim (strOr (some "c1") "") = "c1" ∧
        "c1" ∈ ([Category.mk "c1" "一" .jnull .jnull .jnull].map Category.id)) ∧
      (((byCategory [Category.mk "c1" "一" .jnull .jnull .jnull]
            [PortfolioAsset.mk "a1" "cn" none (some "B") none (some "c1"),
              PortfolioAsset.mk "a2" "cash" none (some "A") none none]).1.map
          (fun p => p.2.length)).sum +
        (byCategory [Category.mk "c1" "一" .jnull .jnull .jnull]
            [PortfolioAsset.mk "a1" "cn" none (some "B") none (some "c1"),
              PortfolioAsset.mk "a2" "cash" none (some "A") none none]).2.length = 2) := by
  refine ⟨by decide, ?_, ?_⟩
  · exact (byCategory_partition [Category.mk "c1" "一" .jnull .jnull .jnull]
      [PortfolioAsset.mk "a1" "cn" none (some "B") none (some "c1"),
        PortfolioAsset.mk "a2" "cash" none (some "A") none none]).2.1
      "c1" [PortfolioAsset.mk "a1" "cn" none (some "B") none (some "c1")]
      (by decide) (PortfolioAsset.mk "a1" "cn" none (some "B") none (some "c1")) (by decide)
  · exact (byCategory_partition [Category.mk "c1" "一" .jnull .jnull .jnull]
      [PortfolioAsset.mk "a1" "cn" none (some "B") none (some "c1"),
        PortfolioAsset.mk "a2" "cash" none (some "A") none none]).1

/-! ## The Allocation Suggester and the phase-2 prefill (spec §4.4, §4.5)

The engine is not part of the checked sources (only the web client is), so the
allocation algorithm and the confirm-after-crypto prefill rule are modelled
from the specification text.  Amounts are rationals; the final per-bucket
amounts are integers in the smallest currency unit. -/

/-- Modelled from the spec: a bucket as seen by the missing server-side
Allocation Suggester — current value and target weight (§3, §4.4). -/
structure AllocBucket where
  value : ℚ
  targetWeight : ℚ
deriving DecidableEq

/-- Modelled from the spec: `total_after = total_value + contribution_amount`
(§4.4 step 1). -/
def totalAfter (bs : List AllocBucket) (c : ℚ) : ℚ :=
  (bs.map AllocBucket.value).sum + c

/-- Modelled from the spec: the raw per-bucket deficit
`max(0, target_weight × total_after − current_bucket_value)` (§4.4 steps 2–3). -/
def bucketDeficit (bs : List AllocBucket) (c : ℚ) (b : AllocBucket) : ℚ :=
  max 0 (b.targetWeight * totalAfter bs c - b.value)

/-- Modelled from the spec: the sum of the raw deficits (§4.4 step 4). -/
def deficitSum (bs : List AllocBucket) (c : ℚ) : ℚ :=
  (bs.map (bucketDeficit bs c)).sum

/-- Sum of the configured target weights. -/
def weightSum (bs : List AllocBucket) : ℚ :=
  (bs.map AllocBucket.targetWeight).sum

/-- Modelled from the spec: the exact (pre-rounding) per-bucket allocations of
the missing Allocation Suggester (§4.4 step 4): scale the deficits down
proportionally when they exceed the contribution, otherwise spread the surplus
proportionally to the target weights. -/
def rawAllocations (bs : List AllocBucket) (c : ℚ) : List ℚ :=
  if c ≤ deficitSum bs c then
    bs.map (fun b => bucketDeficit bs c b * c / deficitSum bs c)
  else
    bs.map (fun b =>
      bucketDeficit bs c b + (c - deficitSum bs c) * b.targetWeight / weightSum bs)

/-- Index of the first maximal element (the bucket with the largest deficit). -/
def argmaxIdx : List ℚ → ℕ
  | [] => 0
  | [_] => 0
  | x :: y :: t =>
    let j := argmaxIdx (y :: t)
    if x < (y :: t).getD j 0 then j + 1 else 0

/-- Add `r` to the `i`-th element of a list. -/
def addAt (l : List ℤ) (i : ℕ) (r : ℤ) : List ℤ :=
  match l, i with
  | [], _ => []
  | x :: t, 0 => (x + r) :: t
  | x :: t, Nat.succ i => x :: addAt t i r

/-- Modelled from the spec: the allocations truncated to the smallest currency
unit (§4.4 step 6). -/
def flooredAllocations (bs : List AllocBucket) (c : ℤ) : List ℤ :=
  (rawAllocations bs (c : ℚ)).map (fun q => ⌊q⌋)

/-- Modelled from the spec: the final per-bucket `allocate_amount`s of the
missing Allocation Suggester — the floored allocations with the rounding
remainder assigned to the bucket with the largest deficit (§4.4 step 6). -/
def allocateAmounts (bs : List AllocBucket) (c : ℤ) : List ℤ :=
  addAt (flooredAllocations bs c) (argmaxIdx (bs.map (bucketDeficit bs (c : ℚ))))
    (c - (flooredAllocations bs c).sum)

theorem argmaxIdx_lt (l : List ℚ) (h : l ≠ []) : argmaxIdx l < l.length := by
  induction l with
  | nil => exact absurd rfl h
  | cons x t ih =>
    cases t with
    | nil => simp [argmaxIdx]
    | cons y t' =>
      have h' := ih (by simp)
      simp only [argmaxIdx]
      split
      · exact Nat.succ_lt_succ h'
      · exact Nat.succ_pos _

theorem addAt_sum (l : List ℤ) (i : ℕ) (r : ℤ) (h : i < l.length) :
    (addAt l i r).sum = l.sum + r := by
  induction l generalizing i with
  | nil => simp at h
  | cons x t ih =>
    cases i with
    | zero =>
      simp [addAt]
      ring
    | succ i =>
      have h' : i < t.length := by simpa using h
      simp only [addAt, List.sum_cons]
      rw [ih i h']
      ring

theorem addAt_getD (l : List ℤ) (i j : ℕ) (r : ℤ) (h : j ≠ i) :
    (addAt l i r).getD j 0 = l.getD j 0 := by
  induction l generalizing i j with
  | nil => simp [addAt]
  | cons x t ih =>
    cases i with
    | zero =>
      cases j with
      | zero => exact absurd rfl h
      | succ j => simp [addAt]
    | succ i =>
      cases j with
      | zero => simp [addAt]
      | succ j =>
        simp only [addAt, List.getD_cons_succ]
        exact ih i j (fun hji => h (by simp [hji]))

theorem sum_map_add' {α : Type} (l : List α) (f g : α → ℚ) :
    (l.map (fun x => f x + g x)).sum = (l.map f).sum + (l.map g).sum := by
  induction l with
  | nil => simp
  | cons x t ih =>
    simp [ih]
    ring

theorem rawAllocations_length (bs : List AllocBucket) (c : ℚ) :
    (rawAllocations bs c).length = bs.length := by
  unfold rawAllocations
  split <;> simp

theorem deficitSum_nonneg (bs : List AllocBucket) (c : ℚ) : 0 ≤ deficitSum bs c := by
  apply List.sum_nonneg
  intro x hx
  obtain ⟨b, _, rfl⟩ := List.mem_map.mp hx
  exact le_max_left 0 _

theorem rawAllocations_sum (bs : List AllocBucket) (c : ℚ)
    (hc : 0 < c) (hw : 0 < weightSum bs) :
    (rawAllocations bs c).sum = c := by
  unfold rawAllocations
  by_cases hS : c ≤ deficitSum bs c
  · have hS0 : deficitSum bs c ≠ 0 := ne_of_gt (lt_of_lt_of_le hc hS)
    simp only [hS, if_true]
    have : (bs.map (fun b => bucketDeficit bs c b * c / deficitSum bs c)).sum =
        (bs.map (bucketDeficit bs c)).sum * (c / deficitSum bs c) := by
      rw [← List.sum_map_mul_right]
      congr 1
      apply List.map_congr_left
      intro b _
      rw [mul_div_assoc]
    rw [this]
    rw [show (bs.map (bucketDeficit bs c)).sum = deficitSum bs c from rfl]
    field_simp
  · simp only [hS, if_false]
    have hw0 : weightSum bs ≠ 0 := ne_of_gt hw
    have : (bs.map (fun b => bucketDeficit bs c b + (c - deficitSum bs c) * b.targetWeight / weightSum bs)).sum =
        (bs.map (bucketDeficit bs c)).sum +
          (bs.map (fun b => b.targetWeight * ((c - deficitSum bs c) / weightSum bs))).sum := by
      rw [← sum_map_add']
      apply congrArg
      apply List.map_congr_left
      intro b _
      field_simp
      ring
    rw [this]
    rw [List.sum_map_mul_right bs AllocBucket.targetWeight
      ((c - deficitSum bs c) / weightSum bs)]
    rw [show (bs.map AllocBucket.targetWeight).sum = weightSum bs from rfl]
    rw [show (bs.map (bucketDeficit bs c)).sum = deficitSum bs c from rfl]
    field_simp

/-- **C1.** Modelled from the spec (the Allocation Suggester is not in the
checked sources): for every bucket list with positive total target weight and
every contribution `c > 0` (in the smallest currency unit), the exact
allocations sum to `c`, the final integer `allocate_amount`s sum to `c`
exactly, and every bucket other than the one with the largest deficit receives
exactly its floored share — the rounding remainder goes to the
largest-deficit bucket alone. -/
theorem allocation_sums_to_contribution (bs : List AllocBucket) (c : ℤ)
    (hc : 0 < c) (hw : 0 < weightSum bs) :
    (rawAllocations bs (c : ℚ)).sum = (c : ℚ) ∧
      (allocateAmounts bs c).sum = c ∧
      ∀ i, i ≠ argmaxIdx (bs.map (bucketDeficit bs (c : ℚ))) →
        (allocateAmounts bs c).getD i 0 = (flooredAllocations bs c).getD i 0 := by
  have hbs : bs ≠ [] := by
    intro h
    rw [h] at hw
    simp [weightSum] at hw
  have hcq : (0 : ℚ) < (c : ℚ) := by exact_mod_cast hc
  have hidx : argmaxIdx (bs.map (bucketDeficit bs (c : ℚ))) < (flooredAllocations bs c).length := by
    have h1 : (bs.map (bucketDeficit bs (c : ℚ))).length = bs.length := by simp
    have h2 : (flooredAllocations bs c).length = bs.length := by
      unfold flooredAllocations
      simp [rawAllocations_length]
    rw [h2, ← h1]
    exact argmaxIdx_lt _ (by simpa using hbs)
  refine ⟨rawAllocations_sum bs (c : ℚ) hcq hw, ?_, ?_⟩
  · unfold allocateAmounts
    rw [addAt_sum _ _ _ hidx]
    ring
  · intro i hi
    unfold allocateAmounts
    exact addAt_getD _ _ _ _ hi

/-- **C1 witness.** Four empty buckets at target weight `1/4` each with a
contribution of 1000 units: the final allocations sum to 1000 exactly. -/
theorem allocation_sums_to_contribution_witness :
    (0 : ℤ) < 1000 ∧
      0 < weightSum [⟨0, 1/4⟩, ⟨0, 1/4⟩, ⟨0, 1/4⟩, ⟨0, 1/4⟩] ∧
      (allocateAmounts [⟨0, 1/4⟩, ⟨0, 1/4⟩, ⟨0, 1/4⟩, ⟨0, 1/4⟩] 1000).sum = 1000 := by
  have hw : 0 < weightSum [(⟨0, 1/4⟩ : AllocBucket), ⟨0, 1/4⟩, ⟨0, 1/4⟩, ⟨0, 1/4⟩] := by
    norm_num [weightSum]
  exact ⟨by norm_num, hw,
    (allocation_sums_to_contribution [⟨0, 1/4⟩, ⟨0, 1/4⟩, ⟨0, 1/4⟩, ⟨0, 1/4⟩] 1000
      (by norm_num) hw).2.1⟩

/-- Modelled from the spec: phase 2 of the missing crypto confirmation engine
computes `actually_acquired = current_balance_value − baseline_value` per
asset, never crediting a negative delta (§4.5). -/
def actuallyAcquired (baseline current : ℚ) : ℚ := max 0 (current - baseline)

/-- Modelled from the spec: the per-asset prefill of `confirm-after-crypto`,
`min(expected, actually_acquired × (1 + slippage_tolerance))` (§4.5). -/
def prefillAmount (expected baseline current slip : ℚ) : ℚ :=
  min expected (actuallyAcquired baseline current * (1 + slip))

/-- **C2.** Modelled from the spec (the confirm-after-crypto engine is not in
the checked sources): for a nonnegative expected amount and slippage
tolerance, the prefill equals
`min(expected, actually_acquired × (1 + slippage_tolerance))`, never exceeds
`expected × (1 + slippage_tolerance)`, and is never negative. -/
theorem prefill_bounded (expected baseline current slip : ℚ)
    (hexp : 0 ≤ expected) (hslip : 0 ≤ slip) :
    prefillAmount expected baseline current slip =
        min expected (actuallyAcquired baseline current * (1 + slip)) ∧
      prefillAmount expected baseline current slip ≤ expected * (1 + slip) ∧
      0 ≤ prefillAmount expected baseline current slip := by
  refine ⟨rfl, ?_, ?_⟩
  · calc prefillAmount expected baseline current slip ≤ expected := min_le_left _ _
    _ ≤ expected * (1 + slip) := le_mul_of_one_le_right hexp (by linarith)
  · apply le_min hexp
    apply mul_nonneg (le_max_left 0 _)
    linarith

/-- **C2 witness.** Expected 10, baseline 5, current 8, tolerance 1%: the
prefill is within the slippage bound and nonnegative. -/
theorem prefill_bounded_witness :
    (0 : ℚ) ≤ 10 ∧ (0 : ℚ) ≤ 1 / 100 ∧
      prefillAmount 10 5 8 (1 / 100) ≤ 10 * (1 + 1 / 100) ∧
      0 ≤ prefillAmount 10 5 8 (1 / 100) :=
  ⟨by norm_num, by norm_num,
    (prefill_bounded 10 5 8 (1 / 100) (by norm_num) (by norm_num)).2.1,
    (prefill_bounded 10 5 8 (1 / 100) (by norm_num) (by norm_num)).2.2⟩
